import Mathlib

/-!
Shallow embedding of `src/jitsiRoomJoiner.py`.

Pure parts (time normalization, active-event selection, URL derivation) are
embedded as Lean functions.  Effectful parts (lockfile, process liveness,
spawning Firefox) are embedded as explicit state passing over `SysState`,
with the external collaborators (the `pgrep` liveness query, the `pkill`
terminate call, the `Popen` spawn outcome, and OS-level file faults)
modelled as oracle inputs in `Env`, matching the spec, which treats the
browser process and process-listing utilities as opaque external
collaborators.  Machine-level details that the claims do not touch
(the exact lockfile path, the Firefox command-line flags, stderr decoding)
are kept only as far as the claims need them.
-/

/-- A Python `datetime`: a wall-clock reading plus an optional fixed UTC
offset (`tzinfo`).  `tz = none` is a naive datetime.  Python compares two
aware datetimes by their UTC instant, which is `wall - offset`. -/
structure Datetime where
  wall : Int
  tz : Option Int
deriving DecidableEq, Repr

/-- The UTC instant denoted by a datetime (for an aware value); for a naive
value Python would compare wall clocks, so the wall reading is returned. -/
def Datetime.instant (d : Datetime) : Int :=
  match d.tz with
  | none => d.wall
  | some o => d.wall - o

/-- A raw event time value as seen by `normalize_dt` after the
`getattr(raw, "dt", raw)` unwrapping in `get_datetime`: a `datetime`, a
date-only value, or some other non-datetime shape. -/
inductive TimeValue
  | dt (d : Datetime)
  | dateOnly
  | other
deriving DecidableEq, Repr

/-- Lines 34-40.  `normalize_dt`: non-datetimes give `None`; a naive
datetime gets the local tz attached via `replace` (same wall clock); an
aware datetime is converted with `astimezone` (same instant, local wall
clock `wall - o + lt`). -/
def normalize_dt (lt : Int) (value : TimeValue) : Option Datetime :=
  match value with
  | .dt d =>
    match d.tz with
    | none => some { d with tz := some lt }
    | some o => some { wall := d.wall - o + lt, tz := some lt }
  | _ => none

/-- The two time fields read by `find_active_event`. -/
inductive TimeField
  | dtstart
  | dtend
deriving DecidableEq, Repr

/-- A parsed VEVENT: the two time fields (absent when the calendar lacks
them), plus the other properties as an association list queried by exact
name, covering the two literal casings `extract_url` looks up. -/
structure VEvent where
  dtstart : Option TimeValue
  dtend : Option TimeValue
  props : List (String × String)
deriving DecidableEq, Repr

/-- The `event.get(field)` lookup for the two time fields. -/
def VEvent.get : VEvent → TimeField → Option TimeValue
  | ev, .dtstart => ev.dtstart
  | ev, .dtend => ev.dtend

/-- Lines 43-48.  `get_datetime`: `event.get(field)`, `None` propagates,
otherwise normalize. -/
def get_datetime (lt : Int) (event : VEvent) (field : TimeField) : Option Datetime :=
  match event.get field with
  | none => none
  | some raw => normalize_dt lt raw

/-- UTF-8 encoding of one character, as CPython encodes before
percent-encoding in `urllib.parse.quote`. -/
def utf8Bytes (c : Char) : List Nat :=
  let n := c.toNat
  if n < 128 then [n]
  else if n < 2048 then [192 + n / 64, 128 + n % 64]
  else if n < 65536 then [224 + n / 4096, 128 + (n / 64) % 64, 128 + n % 64]
  else [240 + n / 262144, 128 + (n / 4096) % 64, 128 + (n / 64) % 64, 128 + n % 64]

/-- Bytes `urllib.parse.quote` leaves unescaped with its default
`safe="/"`: ASCII letters, digits, `_ . - ~` and `/`. -/
def quoteSafeByte (n : Nat) : Bool :=
  (65 ≤ n && n ≤ 90) || (97 ≤ n && n ≤ 122) || (48 ≤ n && n ≤ 57) ||
    n == 95 || n == 46 || n == 45 || n == 126 || n == 47

/-- Upper-case hex digit of a value below 16, as `quote` emits. -/
def hexUpper (n : Nat) : Char :=
  if n < 10 then Char.ofNat (48 + n) else Char.ofNat (55 + n)

/-- Percent-encode a single byte, or keep it verbatim when safe. -/
def quoteByte (n : Nat) : String :=
  if quoteSafeByte n then String.singleton (Char.ofNat n)
  else String.singleton '%' ++ String.singleton (hexUpper (n / 16)) ++
    String.singleton (hexUpper (n % 16))

/-- `urllib.parse.quote` with default arguments: UTF-8 encode, then
percent-encode every unsafe byte. -/
def quote (s : String) : String :=
  String.join ((s.data.flatMap utf8Bytes).map quoteByte)

/-- Configuration read from the environment at startup (lines 13-19).
`os.environ.get` without a default gives an optional value. -/
structure Config where
  icsSource : Option String
  visioBase : Option String
  displayName : String
deriving DecidableEq, Repr

/-- How a Python f-string renders an optional string: `None` prints as the
four characters `None`. -/
def fstrOpt : Option String → String
  | none => "None"
  | some s => s

/-- Python truthiness filter on an optional string: `None` and the empty
string are falsy. -/
def truthyStr : Option String → Option String
  | none => none
  | some s => if s = "" then none else some s

/-- The fixed fragment appended after the conference id in line 54:
percent-encoded display name, pre-join disabled, audio and video unmuted. -/
def urlSuffix (cfg : Config) : String :=
  "#userInfo.displayName=\"" ++ quote cfg.displayName ++
    "\"&config.prejoinConfig.enabled=false&config.startWithAudioMuted=false&config.startWithVideoMuted=false"

/-- Lines 51-55.  `extract_url`: `event.get("x-conference-id") or
event.get("X-CONFERENCE-ID")` under Python truthiness, then the f-string
`f"{VISIO_BASE}{conf_id}#..."` when the result is truthy. -/
def extract_url (cfg : Config) (event : VEvent) : Option String :=
  let conf_id :=
    match truthyStr (event.props.lookup "x-conference-id") with
    | some s => some s
    | none => truthyStr (event.props.lookup "X-CONFERENCE-ID")
  match conf_id with
  | some s => some (fstrOpt cfg.visioBase ++ s ++ urlSuffix cfg)
  | none => none

/-- The triples `(start, end, ev)` collected by the loop in lines 70-76:
events whose two bounds both normalize are kept, in calendar order. -/
def eventTriples (lt : Int) (cal : List VEvent) : List (Datetime × Datetime × VEvent) :=
  cal.filterMap fun ev =>
    match get_datetime lt ev .dtstart, get_datetime lt ev .dtend with
    | some s, some e => some (s, e, ev)
    | _, _ => none

/-- The sort key relation of line 78: ascending by start instant (Python
compares aware datetimes by UTC instant). -/
def startLE (a b : Datetime × Datetime × VEvent) : Prop :=
  a.1.instant ≤ b.1.instant

instance : DecidableRel startLE := fun a b =>
  inferInstanceAs (Decidable (a.1.instant ≤ b.1.instant))

instance : IsTotal (Datetime × Datetime × VEvent) startLE :=
  ⟨fun a b => Int.le_total a.1.instant b.1.instant⟩

instance : IsTrans (Datetime × Datetime × VEvent) startLE :=
  ⟨fun _ _ _ hab hbc => Int.le_trans hab hbc⟩

/-- The guard of line 81: `start <= now < end` on aware datetimes. -/
def activeAt (now : Datetime) (t : Datetime × Datetime × VEvent) : Bool :=
  decide (t.1.instant ≤ now.instant ∧ now.instant < t.2.1.instant)

/-- Lines 69-83.  `find_active_event`: collect events with both bounds,
stable-sort ascending by start (Python `list.sort` is stable; insertion
sort with a non-strict key comparison computes the same list), return the
first sorted event whose half-open interval contains `now`. -/
def find_active_event (lt : Int) (cal : List VEvent) (now : Datetime) : Option VEvent :=
  let sorted := List.insertionSort startLE (eventTriples lt cal)
  (sorted.find? (activeAt now)).map fun t => t.2.2

/-- The first element of a list whose start instant is minimal: the value
a stable ascending sort followed by a first-match scan selects among the
matching elements. -/
def firstMinStart : List (Datetime × Datetime × VEvent) → Option (Datetime × Datetime × VEvent)
  | [] => none
  | x :: xs =>
    match firstMinStart xs with
    | none => some x
    | some y => if y.1.instant < x.1.instant then some y else some x

/-- The whitespace set of Python `str.strip()` with no argument, the
code points CPython treats as whitespace (checked against CPython by
enumerating every code point the no-argument `strip` removes): tab
through carriage return (U+0009..U+000D), the four information
separators (U+001C..U+001F), space, next line (U+0085), no-break space
(U+00A0), ogham space mark (U+1680), the en-quad..hair-space range
(U+2000..U+200A), line separator (U+2028), paragraph separator
(U+2029), narrow no-break space (U+202F), medium mathematical space
(U+205F), and ideographic space (U+3000). -/
def pyIsSpace (c : Char) : Bool :=
  let n := c.toNat
  (9 ≤ n && n ≤ 13) || (28 ≤ n && n ≤ 31) || n == 32 || n == 133 ||
    n == 160 || n == 5760 || (8192 ≤ n && n ≤ 8202) || n == 8232 ||
    n == 8233 || n == 8239 || n == 8287 || n == 12288

/-- Python `str.strip()`: drop whitespace from both ends. -/
def pyStrip (s : String) : String :=
  ⟨(((s.data.dropWhile pyIsSpace).reverse.dropWhile pyIsSpace).reverse)⟩

/-- One message written by `log`; the concrete French text is abstracted
to a tag per call site. -/
inductive LogTag
  | envInfo
  | staleLockRemoved
  | lockRemoveFailed
  | firefoxKilled
  | lockRemoved
  | alreadyConnected
  | lockWriteFailed
  | launching
  | firefoxNotFound
  | firefoxStartFailed
  | firefoxStillRunning
  | firefoxExitedNonzero (code : Int)
  | firefoxExitedZero
  | configureIcsFirst
  | calendarReadFailed
  | noActiveEvent
  | noUrlDetected
  | connecting
deriving DecidableEq, Repr

/-- The observable system state the script manipulates: the lockfile
content (`none` when the file is absent; `fh.write(url)` stores the exact
text), whether a Firefox process matching the profile pattern is alive
(the boolean answer `pgrep` would give), the list of URLs passed to
`Popen` so far, the number of `pkill` invocations, and the log. -/
structure SysState where
  lock : Option String
  running : Bool
  launches : List String
  killCount : Nat
  logs : List LogTag
deriving DecidableEq, Repr

/-- The outcome of the `Popen` call plus the 5-second `communicate`
window in lines 160-181: the spawn call raises `FileNotFoundError`,
raises `OSError`, the child exits within the grace period with some code
and stderr text, or the child is still running when the timeout expires. -/
inductive SpawnOutcome
  | notFound
  | osError
  | exited (code : Int) (stderrText : String)
  | stillRunning
deriving DecidableEq, Repr

/-- The external oracles of one invocation: the local timezone offset,
the current instant, whether `os.remove`, the lockfile read, or the
lockfile write raise `OSError`, and the spawn outcome. -/
structure Env where
  localTZ : Int
  now : Datetime
  removeFails : Bool
  readFails : Bool
  writeFails : Bool
  spawn : SpawnOutcome
deriving Repr

/-- Lines 90-98.  `firefox_running`: the `pgrep` liveness oracle. -/
def firefox_running (st : SysState) : Bool :=
  st.running

/-- Lines 101-110.  `cleanup_stale_lock`: nothing when the lockfile is
absent or Firefox is running; otherwise remove the lockfile, logging a
failure of `os.remove` without raising. -/
def cleanup_stale_lock (env : Env) (st : SysState) : SysState :=
  match st.lock with
  | none => st
  | some _ =>
    if firefox_running st then st
    else if env.removeFails then { st with logs := st.logs ++ [LogTag.lockRemoveFailed] }
    else { st with lock := none, logs := st.logs ++ [LogTag.staleLockRemoved] }

/-- Lines 113-124.  `stop_meeting`: `pkill` the matching processes when
the liveness check reports one, then remove the lockfile when present,
logging a removal failure without raising. -/
def stop_meeting (env : Env) (st : SysState) : SysState :=
  let st1 :=
    if firefox_running st then
      { st with running := false, killCount := st.killCount + 1,
                logs := st.logs ++ [LogTag.firefoxKilled] }
    else st
  match st1.lock with
  | none => st1
  | some _ =>
    if env.removeFails then { st1 with logs := st1.logs ++ [LogTag.lockRemoveFailed] }
    else { st1 with lock := none, logs := st1.logs ++ [LogTag.lockRemoved] }

/-- Lines 142-196 of `launch_meeting`: write the URL to the lockfile
(on `OSError` log and return, lockfile left as it was), then `Popen` the
Firefox command and watch it for 5 seconds: spawn errors and any exit
within the grace period, exit code zero included, lead to `stop_meeting`;
only a child still running after 5 seconds keeps the session. -/
def writeAndSpawn (env : Env) (url : String) (st : SysState) : SysState :=
  if env.writeFails then { st with logs := st.logs ++ [LogTag.lockWriteFailed] }
  else
    let st1 := { st with lock := some url,
                         logs := st.logs ++ [LogTag.launching],
                         launches := st.launches ++ [url] }
    match env.spawn with
    | .notFound => stop_meeting env { st1 with logs := st1.logs ++ [LogTag.firefoxNotFound] }
    | .osError => stop_meeting env { st1 with logs := st1.logs ++ [LogTag.firefoxStartFailed] }
    | .stillRunning => { st1 with running := true, logs := st1.logs ++ [LogTag.firefoxStillRunning] }
    | .exited code _ =>
      if code ≠ 0 then
        stop_meeting env { st1 with logs := st1.logs ++ [LogTag.firefoxExitedNonzero code] }
      else
        stop_meeting env { st1 with logs := st1.logs ++ [LogTag.firefoxExitedZero] }

/-- Lines 127-196.  `launch_meeting`: first `cleanup_stale_lock`; when
the lockfile exists, read it (an `OSError` read degrades to the empty
string), strip it, and when it equals the URL log and return; otherwise
`stop_meeting` and fall through to the write-and-spawn tail. -/
def launch_meeting (env : Env) (url : String) (st0 : SysState) : SysState :=
  let st := cleanup_stale_lock env st0
  match st.lock with
  | some content =>
    let current := if env.readFails then "" else pyStrip content
    if current = url then { st with logs := st.logs ++ [LogTag.alreadyConnected] }
    else writeAndSpawn env url (stop_meeting env st)
  | none => writeAndSpawn env url st

/-- The result of `read_calendar` as the rest of `mainCycle` consumes it: the
events of `cal.walk("VEVENT")`, or any escaping exception. -/
structure CycleInput where
  calendar : Except Unit (List VEvent)
deriving Repr

/-- Whether the invocation returned normally or called `sys.exit(1)`. -/
inductive ExitRes
  | normal
  | exitOne
deriving DecidableEq, Repr

/-- Lines 198-228.  `mainCycle`: exit 1 when `ICS_SOURCE` is falsy (unset or
empty); log the environment; `cleanup_stale_lock`; on a calendar
read or parse failure, `stop_meeting` then exit 1; with no active event
or no URL, `stop_meeting` and return; otherwise `launch_meeting`. -/
def mainCycle (cfg : Config) (inp : CycleInput) (env : Env) (st0 : SysState) : SysState × ExitRes :=
  if cfg.icsSource.getD "" = "" then
    ({ st0 with logs := st0.logs ++ [LogTag.configureIcsFirst] }, .exitOne)
  else
    let st := { st0 with logs := st0.logs ++ [LogTag.envInfo] }
    let st := cleanup_stale_lock env st
    match inp.calendar with
    | .error _ =>
      (stop_meeting env { st with logs := st.logs ++ [LogTag.calendarReadFailed] }, .exitOne)
    | .ok cal =>
      match find_active_event env.localTZ cal env.now with
      | none => (stop_meeting env { st with logs := st.logs ++ [LogTag.noActiveEvent] }, .normal)
      | some ev =>
        match extract_url cfg ev with
        | none => (stop_meeting env { st with logs := st.logs ++ [LogTag.noUrlDetected] }, .normal)
        | some url =>
          (launch_meeting env url { st with logs := st.logs ++ [LogTag.connecting] }, .normal)

/-- The lockfile write of lines 143-144: `fh.write(url)` stores the URL
text exactly, with nothing appended. -/
def write_lock (st : SysState) (url : String) : SysState :=
  { st with lock := some url }

/-- The lockfile re-read of lines 132-134 as `launch_meeting` performs
it: `fh.read().strip()` on the stored content. -/
def read_lock (st : SysState) : Option String :=
  st.lock.map pyStrip

/-- Shorthand for the triples `(start, end, event)` handled by the
selection loop. -/
abbrev Trip := Datetime × Datetime × VEvent

/-- A concrete fault-free environment whose spawned process survives the
grace period, used to instantiate theorems on concrete inputs. -/
def envOk : Env := ⟨0, ⟨150, some 0⟩, false, false, false, .stillRunning⟩

/-- A concrete fault-free environment whose spawned process exits with
code zero inside the grace period. -/
def envExit0 : Env := ⟨0, ⟨150, some 0⟩, false, false, false, .exited 0 ""⟩

/-- The idle concrete state: no lockfile, no process, nothing launched. -/
def stIdle : SysState := ⟨none, false, [], 0, []⟩

/-- A concrete event active at instant 150 carrying a conference id. -/
def evA : VEvent :=
  ⟨some (.dt ⟨100, some 0⟩), some (.dt ⟨200, some 0⟩), [("x-conference-id", "abc")]⟩

/-- A concrete configuration with every setting present. -/
def cfgA : Config := ⟨some "cal.ics", some "https://m/", "Bob"⟩

/-- The URL `extract_url` derives from `evA` under `cfgA`. -/
def urlA : String :=
  "https://m/abc#userInfo.displayName=\"Bob\"&config.prejoinConfig.enabled=false&config.startWithAudioMuted=false&config.startWithVideoMuted=false"

theorem firstMinStart_isSome (L : List Trip) : (firstMinStart L).isSome ↔ L ≠ [] := by
  induction L with
  | nil => simp [firstMinStart]
  | cons x xs ih =>
    simp only [firstMinStart]
    cases h : firstMinStart xs with
    | none => simp
    | some y =>
      by_cases hy : y.1.instant < x.1.instant <;> simp [hy]

theorem mem_dropWhile_startLE {x : Trip} :
    ∀ {S : List Trip}, S.Sorted startLE →
      ∀ {y : Trip}, y ∈ S.dropWhile (fun b => decide ¬ startLE x b) → startLE x y := by
  intro S
  induction S with
  | nil => intro _ y hy; simp at hy
  | cons a S ih =>
    intro hs y hy
    rw [List.sorted_cons] at hs
    rw [List.dropWhile_cons] at hy
    by_cases hqa : startLE x a
    · have hdec : (decide ¬ startLE x a) = false := by simp [hqa]
      rw [hdec] at hy
      simp only [Bool.false_eq_true, if_false, List.mem_cons] at hy
      rcases hy with rfl | hy
      · exact hqa
      · exact le_trans hqa (hs.1 y hy)
    · have hdec : (decide ¬ startLE x a) = true := by simp [hqa]
      rw [hdec] at hy
      simp only [if_true] at hy
      exact ih hs.2 hy

theorem find?_insertionSort (p : Trip → Bool) :
    ∀ L : List Trip,
      (List.insertionSort startLE L).find? p = firstMinStart (L.filter p) := by
  intro L
  induction L with
  | nil => rfl
  | cons x L ih =>
    have hsorted : (List.insertionSort startLE L).Sorted startLE :=
      List.sorted_insertionSort startLE L
    set S := List.insertionSort startLE L with hS
    have hsplit : S.find? p =
        ((S.takeWhile fun b => decide ¬ startLE x b).find? p).or
          ((S.dropWhile fun b => decide ¬ startLE x b).find? p) := by
      conv_lhs => rw [← List.takeWhile_append_dropWhile (fun b => decide ¬ startLE x b) S]
      rw [List.find?_append]
    have hstep : List.insertionSort startLE (x :: L) = List.orderedInsert startLE x S := rfl
    rw [hstep, List.orderedInsert_eq_take_drop, List.find?_append, List.filter_cons]
    cases hT : (S.takeWhile fun b => decide ¬ startLE x b).find? p with
    | some y =>
      have hmem := List.mem_of_find?_eq_some hT
      have hlt : y.1.instant < x.1.instant := by
        have hn : ¬ startLE x y := by simpa using List.mem_takeWhile_imp hmem
        simp only [startLE, not_le] at hn
        exact hn
      have hfy : firstMinStart (L.filter p) = some y := by
        rw [← ih, hsplit, hT]; rfl
      cases hpx : p x with
      | true => simp [hpx, firstMinStart, hfy, hlt, Option.or]
      | false => simp [hpx, hfy, Option.or]
    | none =>
      have hrest : S.find? p = (S.dropWhile fun b => decide ¬ startLE x b).find? p := by
        rw [hsplit, hT]; rfl
      simp only [Option.or]
      cases hpx : p x with
      | true =>
        rw [List.find?_cons_of_pos _ hpx]
        simp only [hpx, if_true, firstMinStart]
        rw [← ih, hrest]
        cases hD : (S.dropWhile fun b => decide ¬ startLE x b).find? p with
        | none => rfl
        | some y =>
          have hmem := List.mem_of_find?_eq_some hD
          have hxy : startLE x y := mem_dropWhile_startLE hsorted hmem
          have hnlt : ¬ y.1.instant < x.1.instant := by
            simp only [startLE] at hxy
            omega
          simp only [hnlt, if_false]
      | false =>
        rw [List.find?_cons_of_neg _ (by simp [hpx])]
        simp only [hpx, Bool.false_eq_true, if_false]
        rw [← ih, hrest]

theorem mem_eventTriples (lt : Int) (cal : List VEvent) (t : Trip) :
    t ∈ eventTriples lt cal ↔
      t.2.2 ∈ cal ∧ get_datetime lt t.2.2 .dtstart = some t.1 ∧
        get_datetime lt t.2.2 .dtend = some t.2.1 := by
  rw [eventTriples, List.mem_filterMap]
  constructor
  · rintro ⟨ev, hev, hf⟩
    cases h1 : get_datetime lt ev .dtstart with
    | none => rw [h1] at hf; simp at hf
    | some s =>
      cases h2 : get_datetime lt ev .dtend with
      | none => rw [h1, h2] at hf; simp at hf
      | some e1 =>
        rw [h1, h2] at hf
        simp only [Option.some_inj] at hf
        subst hf
        exact ⟨hev, h1, h2⟩
  · rintro ⟨hev, h1, h2⟩
    refine ⟨t.2.2, hev, ?_⟩
    rw [h1, h2]

/-- C1: with every event carrying both normalized bounds, selection
succeeds exactly when some event contains `now` in `[start, end)`, and
the selected event is the first-in-calendar-order event among those with
the minimal start, as computed by `firstMinStart` over the qualifying
triples in calendar order. -/
theorem find_active_event_correct (lt : Int) (cal : List VEvent) (now : Datetime)
    (_hall : ∀ ev ∈ cal, (get_datetime lt ev .dtstart).isSome ∧
      (get_datetime lt ev .dtend).isSome) :
    ((find_active_event lt cal now).isSome ↔
      ∃ ev ∈ cal, ∃ s e1, get_datetime lt ev .dtstart = some s ∧
        get_datetime lt ev .dtend = some e1 ∧
        s.instant ≤ now.instant ∧ now.instant < e1.instant) ∧
    find_active_event lt cal now =
      (firstMinStart ((eventTriples lt cal).filter (activeAt now))).map fun t => t.2.2 := by
  have hclosed : find_active_event lt cal now =
      (firstMinStart ((eventTriples lt cal).filter (activeAt now))).map fun t => t.2.2 := by
    rw [find_active_event, find?_insertionSort]
  refine ⟨?_, hclosed⟩
  rw [hclosed, Option.isSome_map', firstMinStart_isSome]
  constructor
  · intro hne
    obtain ⟨t, ht⟩ := List.exists_mem_of_ne_nil _ hne
    rw [List.mem_filter] at ht
    obtain ⟨htrip, hact⟩ := ht
    rw [mem_eventTriples] at htrip
    refine ⟨t.2.2, htrip.1, t.1, t.2.1, htrip.2.1, htrip.2.2, ?_⟩
    simpa [activeAt] using hact
  · rintro ⟨ev, hev, s, e1, h1, h2, h3, h4⟩
    have htrip : (s, e1, ev) ∈ eventTriples lt cal := by
      rw [mem_eventTriples]
      exact ⟨hev, h1, h2⟩
    have hmem : (s, e1, ev) ∈ (eventTriples lt cal).filter (activeAt now) := by
      rw [List.mem_filter]
      exact ⟨htrip, by simp [activeAt, h3, h4]⟩
    exact List.ne_nil_of_mem hmem

theorem find_active_event_correct_witness :
    (∀ ev ∈ ([⟨some (.dt ⟨1, some 0⟩), some (.dt ⟨5, some 0⟩), []⟩] : List VEvent),
      (get_datetime 0 ev .dtstart).isSome ∧ (get_datetime 0 ev .dtend).isSome) ∧
    (((find_active_event 0 [⟨some (.dt ⟨1, some 0⟩), some (.dt ⟨5, some 0⟩), []⟩]
        ⟨3, some 0⟩).isSome ↔
      ∃ ev ∈ ([⟨some (.dt ⟨1, some 0⟩), some (.dt ⟨5, some 0⟩), []⟩] : List VEvent),
        ∃ s e1, get_datetime 0 ev .dtstart = some s ∧
          get_datetime 0 ev .dtend = some e1 ∧
          s.instant ≤ Datetime.instant ⟨3, some 0⟩ ∧
          Datetime.instant ⟨3, some 0⟩ < e1.instant) ∧
    find_active_event 0 [⟨some (.dt ⟨1, some 0⟩), some (.dt ⟨5, some 0⟩), []⟩] ⟨3, some 0⟩ =
      (firstMinStart ((eventTriples 0 [⟨some (.dt ⟨1, some 0⟩), some (.dt ⟨5, some 0⟩), []⟩]).filter
        (activeAt ⟨3, some 0⟩))).map fun t => t.2.2) :=
  ⟨by decide, find_active_event_correct 0 _ ⟨3, some 0⟩ (by decide)⟩

/-- C3: an event with a missing start, a missing end, or a normalized
start at or after its normalized end is never the selected event: the
selected event always comes with both bounds and a strictly earlier
start, since `start <= now < end` forces `start < end`. -/
theorem find_active_event_skips_invalid (lt : Int) (cal : List VEvent) (now : Datetime)
    (ev : VEvent)
    (hbad : ¬ ∃ s e1, get_datetime lt ev .dtstart = some s ∧
      get_datetime lt ev .dtend = some e1 ∧ s.instant < e1.instant) :
    find_active_event lt cal now ≠ some ev := by
  intro hfind
  rw [find_active_event] at hfind
  rw [Option.map_eq_some'] at hfind
  obtain ⟨t, ht, hev⟩ := hfind
  have hact : activeAt now t = true := List.find?_some ht
  have hmem : t ∈ List.insertionSort startLE (eventTriples lt cal) :=
    List.mem_of_find?_eq_some ht
  have htrip : t ∈ eventTriples lt cal :=
    (List.perm_insertionSort startLE (eventTriples lt cal)).mem_iff.mp hmem
  rw [mem_eventTriples] at htrip
  refine hbad ⟨t.1, t.2.1, ?_, ?_, ?_⟩
  · rw [hev] at htrip; exact htrip.2.1
  · rw [hev] at htrip; exact htrip.2.2
  · simp only [activeAt, decide_eq_true_eq] at hact
    omega

theorem find_active_event_skips_invalid_witness :
    find_active_event 0 [⟨none, some (.dt ⟨5, some 0⟩), []⟩] ⟨3, some 0⟩ ≠
      some ⟨none, some (.dt ⟨5, some 0⟩), []⟩ :=
  find_active_event_skips_invalid 0 _ _ _
    (by rintro ⟨s, e1, hs, he, hlt⟩; exact Option.noConfusion hs)

/-- C5: `normalize_dt` is a total function; every produced value is
aware in the local timezone; non-datetime inputs produce no value; a
naive datetime keeps its wall clock and gains the local timezone; an
aware datetime is converted to the local timezone at the same instant. -/
theorem normalize_dt_correct (lt : Int) (value : TimeValue) :
    (∀ d, normalize_dt lt value = some d → d.tz = some lt) ∧
    ((normalize_dt lt value).isSome ↔ ∃ d0, value = .dt d0) ∧
    (∀ w, value = .dt ⟨w, none⟩ → normalize_dt lt value = some ⟨w, some lt⟩) ∧
    (∀ w o, value = .dt ⟨w, some o⟩ →
      normalize_dt lt value = some ⟨w - o + lt, some lt⟩ ∧
      Datetime.instant ⟨w - o + lt, some lt⟩ = Datetime.instant ⟨w, some o⟩) := by
  cases value with
  | dt d =>
    obtain ⟨w, tz⟩ := d
    cases tz with
    | none =>
      refine ⟨?_, by simp [normalize_dt], ?_, ?_⟩
      · rintro d hd
        simp only [normalize_dt, Option.some_inj] at hd
        rw [← hd]
      · rintro w1 hw
        simp only [TimeValue.dt.injEq, Datetime.mk.injEq] at hw
        simp [normalize_dt, hw.1]
      · rintro w1 o1 hw
        simp at hw
    | some o =>
      refine ⟨?_, by simp [normalize_dt], ?_, ?_⟩
      · rintro d hd
        simp only [normalize_dt, Option.some_inj] at hd
        rw [← hd]
      · rintro w1 hw
        simp at hw
      · rintro w1 o1 hw
        simp only [TimeValue.dt.injEq, Datetime.mk.injEq, Option.some_inj] at hw
        obtain ⟨hw1, ho1⟩ := hw
        subst hw1; subst ho1
        refine ⟨by simp [normalize_dt], ?_⟩
        simp [Datetime.instant]
  | dateOnly => refine ⟨by simp [normalize_dt], by simp [normalize_dt], by simp, by simp⟩
  | other => refine ⟨by simp [normalize_dt], by simp [normalize_dt], by simp, by simp⟩

theorem normalize_dt_correct_witness :
    normalize_dt 7 (.dt ⟨100, some 3⟩) = some ⟨100 - 3 + 7, some 7⟩ ∧
    Datetime.instant ⟨100 - 3 + 7, some 7⟩ = Datetime.instant ⟨100, some 3⟩ :=
  (normalize_dt_correct 7 (.dt ⟨100, some 3⟩)).2.2.2 100 3 rfl

/-- C6 counterexample: an event that does carry the conference-id field
under one of the two checked casings, with an empty value, still yields
no URL, because the Python truthiness test on the field value rejects
the empty string; so field presence alone does not determine the
outcome, contrary to the claim. -/
theorem extract_url_present_empty_field_cex :
    (VEvent.mk none none [("x-conference-id", "")]).props.lookup "x-conference-id" =
      some "" ∧
    extract_url ⟨some "ics", some "https://example.org/", "Room"⟩
      ⟨none, none, [("x-conference-id", "")]⟩ = none := by
  decide

/-- C6 amended: `extract_url` returns no URL exactly when neither of the
two checked literal casings carries a truthy (non-empty) identifier;
when one does (the lower-case lookup preferred), the result concatenates
the configured base as the f-string prints it, the raw identifier, and
the fixed fragment with the percent-encoded display name and the
conferencing flags; the string is still built when the base is unset,
with the base rendering as the text `None`. -/
theorem extract_url_correct (cfg : Config) (ev : VEvent) :
    (extract_url cfg ev = none ↔
      truthyStr (ev.props.lookup "x-conference-id") = none ∧
      truthyStr (ev.props.lookup "X-CONFERENCE-ID") = none) ∧
    (∀ cid, truthyStr (ev.props.lookup "x-conference-id") = some cid →
      extract_url cfg ev = some (fstrOpt cfg.visioBase ++ cid ++ urlSuffix cfg)) ∧
    (truthyStr (ev.props.lookup "x-conference-id") = none →
      ∀ cid, truthyStr (ev.props.lookup "X-CONFERENCE-ID") = some cid →
        extract_url cfg ev = some (fstrOpt cfg.visioBase ++ cid ++ urlSuffix cfg)) ∧
    (cfg.visioBase = none →
      ∀ cid, truthyStr (ev.props.lookup "x-conference-id") = some cid →
        extract_url cfg ev = some ("None" ++ cid ++ urlSuffix cfg)) := by
  cases h1 : truthyStr (ev.props.lookup "x-conference-id") with
  | some s =>
    refine ⟨by simp [extract_url, h1], ?_, ?_, ?_⟩
    · rintro cid hcid
      rw [Option.some_inj] at hcid
      subst hcid
      simp [extract_url, h1]
    · intro hnone
      exact Option.noConfusion hnone
    · rintro hbase cid hcid
      rw [Option.some_inj] at hcid
      subst hcid
      simp [extract_url, h1, hbase, fstrOpt]
  | none =>
    cases h2 : truthyStr (ev.props.lookup "X-CONFERENCE-ID") with
    | some s =>
      refine ⟨by simp [extract_url, h1, h2], ?_, ?_, ?_⟩
      · rintro cid hcid
        exact Option.noConfusion hcid
      · rintro _ cid hcid
        rw [Option.some_inj] at hcid
        subst hcid
        simp [extract_url, h1, h2]
      · rintro hbase cid hcid
        exact Option.noConfusion hcid
    | none =>
      refine ⟨by simp [extract_url, h1, h2], ?_, ?_, ?_⟩
      · rintro cid hcid
        exact Option.noConfusion hcid
      · rintro _ cid hcid
        exact Option.noConfusion hcid
      · rintro hbase cid hcid
        exact Option.noConfusion hcid

theorem extract_url_correct_witness :
    extract_url ⟨some "i", some "https://m/", "Bob"⟩
      ⟨none, none, [("x-conference-id", "abc")]⟩ =
      some (fstrOpt (some "https://m/") ++ "abc" ++
        urlSuffix ⟨some "i", some "https://m/", "Bob"⟩) :=
  (extract_url_correct ⟨some "i", some "https://m/", "Bob"⟩
    ⟨none, none, [("x-conference-id", "abc")]⟩).2.1 "abc" (by decide)

/-- C4: from every state with the lockfile present and the liveness
check reporting no matching process, and the `os.remove` call
succeeding, `cleanup_stale_lock` removes the lockfile and performs no
terminate call and no launch. -/
theorem cleanup_stale_lock_heals (env : Env) (st : SysState) (c : String)
    (hlock : st.lock = some c) (hrun : st.running = false)
    (hrm : env.removeFails = false) :
    (cleanup_stale_lock env st).lock = none ∧
    (cleanup_stale_lock env st).killCount = st.killCount ∧
    (cleanup_stale_lock env st).launches = st.launches ∧
    (cleanup_stale_lock env st).running = st.running := by
  simp [cleanup_stale_lock, firefox_running, hlock, hrun, hrm]

theorem cleanup_stale_lock_heals_witness :
    (cleanup_stale_lock envOk ⟨some "u", false, [], 0, []⟩).lock = none ∧
    (cleanup_stale_lock envOk ⟨some "u", false, [], 0, []⟩).killCount =
      (SysState.mk (some "u") false [] 0 []).killCount ∧
    (cleanup_stale_lock envOk ⟨some "u", false, [], 0, []⟩).launches =
      (SysState.mk (some "u") false [] 0 []).launches ∧
    (cleanup_stale_lock envOk ⟨some "u", false, [], 0, []⟩).running =
      (SysState.mk (some "u") false [] 0 []).running :=
  cleanup_stale_lock_heals envOk ⟨some "u", false, [], 0, []⟩ "u" rfl rfl rfl

/-- C9: with the calendar source configuration absent, `main` exits with
a non-zero status having only logged: the lockfile is untouched, no
process is launched or terminated. -/
theorem mainCycle_missing_config (cfg : Config) (inp : CycleInput) (env : Env)
    (st0 : SysState) (hics : cfg.icsSource = none) :
    mainCycle cfg inp env st0 =
      ({ st0 with logs := st0.logs ++ [LogTag.configureIcsFirst] }, .exitOne) := by
  simp [mainCycle, hics]

theorem mainCycle_missing_config_witness :
    mainCycle ⟨none, some "https://m/", "Bob"⟩ ⟨.ok []⟩ envOk stIdle =
      ({ stIdle with logs := stIdle.logs ++ [LogTag.configureIcsFirst] }, .exitOne) :=
  mainCycle_missing_config ⟨none, some "https://m/", "Bob"⟩ ⟨.ok []⟩ envOk stIdle rfl

/-- C7: when reading or parsing the calendar fails, `main` stops any
active session (the terminate call runs exactly when a matching process
was alive, the lockfile ends up removed), logs the failure, exits with a
non-zero status, and performs no launch and no other mutation. -/
theorem mainCycle_calendar_failure (cfg : Config) (inp : CycleInput) (env : Env)
    (st0 : SysState) (src : String)
    (hics : cfg.icsSource = some src) (hne : src ≠ "")
    (hcal : inp.calendar = .error ())
    (hrm : env.removeFails = false) :
    (mainCycle cfg inp env st0).2 = .exitOne ∧
    (mainCycle cfg inp env st0).1.lock = none ∧
    (mainCycle cfg inp env st0).1.launches = st0.launches ∧
    (mainCycle cfg inp env st0).1.killCount =
      st0.killCount + (if st0.running then 1 else 0) ∧
    (mainCycle cfg inp env st0).1.running = false ∧
    LogTag.calendarReadFailed ∈ (mainCycle cfg inp env st0).1.logs := by
  obtain ⟨lk, run, la, kc, lg⟩ := st0
  cases lk <;> cases run <;>
    simp [mainCycle, hics, hne, hcal, hrm, cleanup_stale_lock, stop_meeting,
      firefox_running]

theorem mainCycle_calendar_failure_witness :
    (mainCycle cfgA ⟨.error ()⟩ envOk ⟨some "u", true, [], 0, []⟩).2 = .exitOne ∧
    (mainCycle cfgA ⟨.error ()⟩ envOk ⟨some "u", true, [], 0, []⟩).1.lock = none ∧
    (mainCycle cfgA ⟨.error ()⟩ envOk ⟨some "u", true, [], 0, []⟩).1.launches =
      (SysState.mk (some "u") true [] 0 []).launches ∧
    (mainCycle cfgA ⟨.error ()⟩ envOk ⟨some "u", true, [], 0, []⟩).1.killCount =
      (SysState.mk (some "u") true [] 0 []).killCount +
        (if (SysState.mk (some "u") true [] 0 []).running then 1 else 0) ∧
    (mainCycle cfgA ⟨.error ()⟩ envOk ⟨some "u", true, [], 0, []⟩).1.running = false ∧
    LogTag.calendarReadFailed ∈
      (mainCycle cfgA ⟨.error ()⟩ envOk ⟨some "u", true, [], 0, []⟩).1.logs :=
  mainCycle_calendar_failure cfgA ⟨.error ()⟩ envOk ⟨some "u", true, [], 0, []⟩
    "cal.ics" rfl (by decide) rfl rfl

/-- C8 counterexample: a URL carrying surrounding whitespace does not
survive the round trip through the re-read the program performs on the
lockfile, because line 134 strips the text it read. -/
theorem lock_roundtrip_cex :
    read_lock (write_lock stIdle " u ") ≠ some " u " ∧
    read_lock (write_lock stIdle " u ") = some "u" := by
  constructor
  · intro h
    have h2 : pyStrip " u " = " u " := Option.some_inj.mp h
    exact absurd h2 (by decide)
  · rfl

/-- C8 amended: writing URL U stores exactly U, and the re-read of the
program yields U stripped of surrounding whitespace, hence exactly U
whenever U carries none. -/
theorem lock_roundtrip (st : SysState) (u : String) :
    (write_lock st u).lock = some u ∧
    read_lock (write_lock st u) = some (pyStrip u) ∧
    (pyStrip u = u → read_lock (write_lock st u) = some u) := by
  refine ⟨rfl, rfl, ?_⟩
  intro h
  simp [read_lock, write_lock, h]

theorem lock_roundtrip_witness :
    read_lock (write_lock stIdle "https://m/x") = some "https://m/x" :=
  (lock_roundtrip stIdle "https://m/x").2.2 (by decide)

/-- C10: writing then spawning from a state without a lockfile: a child
that terminates within the 5-second grace period, whatever its exit
code, zero included, triggers `stop_meeting`, which removes the
just-written lockfile and leaves no session; only a child still running
after the grace period keeps the lockfile and the active session. -/
theorem launch_meeting_grace_period (env : Env) (u : String) (st : SysState)
    (hlk : st.lock = none) (hwrite : env.writeFails = false)
    (hrm : env.removeFails = false) :
    (∀ code serr, env.spawn = .exited code serr →
      (launch_meeting env u st).lock = none ∧
      (launch_meeting env u st).launches = st.launches ++ [u] ∧
      (launch_meeting env u st).running = false) ∧
    (env.spawn = .stillRunning →
      (launch_meeting env u st).lock = some u ∧
      (launch_meeting env u st).launches = st.launches ++ [u] ∧
      (launch_meeting env u st).running = true) := by
  obtain ⟨lk, run, la, kc, lg⟩ := st
  simp only [SysState.lock] at hlk
  subst hlk
  constructor
  · rintro code serr hspawn
    by_cases hcode : code = 0 <;> cases run <;>
      simp [launch_meeting, cleanup_stale_lock, writeAndSpawn, stop_meeting,
        firefox_running, hspawn, hwrite, hrm, hcode]
  · intro hspawn
    simp [launch_meeting, cleanup_stale_lock, writeAndSpawn, stop_meeting,
      firefox_running, hspawn, hwrite, hrm]

theorem launch_meeting_grace_period_witness :
    ((launch_meeting envExit0 "u" stIdle).lock = none ∧
      (launch_meeting envExit0 "u" stIdle).launches = stIdle.launches ++ ["u"] ∧
      (launch_meeting envExit0 "u" stIdle).running = false) ∧
    ((launch_meeting envOk "u" stIdle).lock = some "u" ∧
      (launch_meeting envOk "u" stIdle).launches = stIdle.launches ++ ["u"] ∧
      (launch_meeting envOk "u" stIdle).running = true) :=
  ⟨(launch_meeting_grace_period envExit0 "u" stIdle rfl rfl rfl).1 0 "" rfl,
    (launch_meeting_grace_period envOk "u" stIdle rfl rfl rfl).2 rfl⟩

/-- C2 counterexample: the lockfile holds exactly the URL (already
stripped), yet with the liveness check reporting no matching process
`launch_meeting` is not a no-op: the stale-lock cleanup removes the
lockfile before the content comparison, so Firefox is launched again. -/
theorem launch_meeting_not_noop_cex :
    pyStrip "u" = "u" ∧
    (launch_meeting envOk "u" ⟨some "u", false, [], 0, []⟩).launches = ["u"] := by
  constructor
  · decide
  · rfl

/-- C2 amended: when the lockfile exists, its stripped content equals
the URL, the liveness check reports the launcher running, and the
lockfile read succeeds, `launch_meeting` only logs: no stop, no launch,
no lockfile change; consequently two successive full cycles over the
same calendar, instant and environment, starting without a lockfile,
launch exactly once, provided the derived URL carries no surrounding
whitespace. -/
theorem launch_meeting_idempotent :
    (∀ env u st c, st.lock = some c → pyStrip c = u → st.running = true →
      env.readFails = false →
      (launch_meeting env u st).lock = st.lock ∧
      (launch_meeting env u st).running = st.running ∧
      (launch_meeting env u st).launches = st.launches ∧
      (launch_meeting env u st).killCount = st.killCount) ∧
    (∀ cfg inp env st0 src cal ev u,
      cfg.icsSource = some src → src ≠ "" → inp.calendar = .ok cal →
      find_active_event env.localTZ cal env.now = some ev →
      extract_url cfg ev = some u → pyStrip u = u →
      env.spawn = .stillRunning → env.removeFails = false →
      env.readFails = false → env.writeFails = false →
      st0.lock = none →
      (mainCycle cfg inp env st0).1.launches = st0.launches ++ [u] ∧
      (mainCycle cfg inp env (mainCycle cfg inp env st0).1).1.launches =
        (mainCycle cfg inp env st0).1.launches) := by
  constructor
  · rintro env u st c hlock hstrip hrun hread
    obtain ⟨lk, run, la, kc, lg⟩ := st
    simp only [SysState.lock] at hlock
    simp only [SysState.running] at hrun
    subst hlock; subst hrun
    simp [launch_meeting, cleanup_stale_lock, firefox_running, hread, hstrip]
  · rintro cfg inp env st0 src cal ev u hics hne hcal hfind hurl hstrip hspawn
      hrm hread hwrite hlk
    obtain ⟨lk, run, la, kc, lg⟩ := st0
    simp only [SysState.lock] at hlk
    subst hlk
    simp [mainCycle, hics, hne, hcal, hfind, hurl, launch_meeting,
      cleanup_stale_lock, writeAndSpawn, stop_meeting, firefox_running,
      hspawn, hrm, hread, hwrite, hstrip]

theorem launch_meeting_idempotent_witness :
    ((launch_meeting envOk "u" ⟨some "u", true, [], 0, []⟩).lock =
        (SysState.mk (some "u") true [] 0 []).lock ∧
      (launch_meeting envOk "u" ⟨some "u", true, [], 0, []⟩).running =
        (SysState.mk (some "u") true [] 0 []).running ∧
      (launch_meeting envOk "u" ⟨some "u", true, [], 0, []⟩).launches =
        (SysState.mk (some "u") true [] 0 []).launches ∧
      (launch_meeting envOk "u" ⟨some "u", true, [], 0, []⟩).killCount =
        (SysState.mk (some "u") true [] 0 []).killCount) ∧
    ((mainCycle cfgA ⟨.ok [evA]⟩ envOk stIdle).1.launches =
        stIdle.launches ++ [urlA] ∧
      (mainCycle cfgA ⟨.ok [evA]⟩ envOk (mainCycle cfgA ⟨.ok [evA]⟩ envOk stIdle).1).1.launches =
        (mainCycle cfgA ⟨.ok [evA]⟩ envOk stIdle).1.launches) :=
  ⟨launch_meeting_idempotent.1 envOk "u" ⟨some "u", true, [], 0, []⟩ "u"
      rfl (by decide) rfl rfl,
    launch_meeting_idempotent.2 cfgA ⟨.ok [evA]⟩ envOk stIdle "cal.ics" [evA]
      evA urlA rfl (by decide) rfl (by decide) (by decide) (by decide) rfl rfl
      rfl rfl rfl⟩

